import Mathlib

/-!
Verification of the concurrent extraction pipeline of `src/scraper.ts`
(pc-part-dataset).  The scraper walks a paginated catalog site category by
category, turns each catalog item into a typed record via a serialization
mapping table, and writes one JSON artifact per category, marking the
artifact `.incomplete` when extraction aborts after partial progress.

The shallow embedding below models, from the source:
  * the record type (`Part`, a string-keyed assignment list as built by the
    JS object assignments in `scrape`),
  * per-spec-cell processing (`processSpecs`, lines 175-208 of scraper.ts),
  * per-item processing with its try/catch fault isolation
    (`processItem`, lines 157-213),
  * the per-page item loop with the `-n` limit check (`processItems`,
    lines 157-220),
  * the page loop of the async generator (`scrapePages` / `scrape`,
    lines 143-228),
  * the per-category cluster task with its partial-write policy
    (`runTask`, lines 63-91),
  * the pre-flight check and job queueing (`runAll`, lines 93-113),
  * the positional-argument handling (`endpointsToScrape`, lines 233-236).

DOM reads that can throw are modelled as `Option`-valued fields of the
`Item` / `SpecCell` input data (`none` = the corresponding puppeteer call
rejects); `console.warn` / `console.error` emissions are modelled as a
`List LogEntry` output.  `serializeNumber` lives in `serializers.ts`, which
is not part of the repository snapshot; it is modelled from the spec where
noted.  The generic serializer and the custom-serializer registry are
likewise external inputs and are taken as parameters of the pipeline.
-/

namespace PCPS

/-- A typed field value: string, number, boolean or null
(the value space of a `Part` record in `types.ts`). -/
inductive Value where
  | str (s : String)
  | num (q : ℚ)
  | bool (b : Bool)
  | null
deriving DecidableEq, Repr

/-- A record for one catalog item: a JS object built by successive
assignments `serialized[key] = value`, modelled as an insertion-ordered
assignment list. -/
abbrev Part := List (String × Value)

/-- JS object assignment `p[k] = v`: overwrites in place if the key is
present, otherwise appends at the end (JS insertion order). -/
def setField : Part → String → Value → Part
  | [], k, v => [(k, v)]
  | e :: rest, k, v =>
      if e.1 = k then (k, v) :: rest else e :: setField rest k v

/-- JS object read `p[k]`: `none` when the field is absent. -/
def getField : Part → String → Option Value
  | [], _ => none
  | e :: rest, k => if e.1 = k then some e.2 else getField rest k

/-- The serialization kind tag of a mapping entry.  The code only
discriminates `custom` from everything else (line 194), the other kinds
being handed to `genericSerialize`. -/
inductive SerKind where
  | text
  | number
  | bool
  | custom
deriving DecidableEq, Repr

/-- One `td.td__spec` cell of an item row.  `label` is the text of the
`.specLabel` node (`none` = node missing, so `$eval` rejects);
`value` is `childNodes[1]?.textContent` (`none` = JS `null`/`undefined`,
which does not throw). -/
structure SpecCell where
  label : Option String
  value : Option String
deriving DecidableEq, Repr

/-- One `.tr__product` row.  `nameText` is the name paragraph's
`innerText` (`none` = node missing, `$eval` rejects); `priceText` is the
`.td__price` cell's `textContent` (outer `none` = cell missing so `$eval`
rejects, inner `none` = JS `null` textContent). -/
structure Item where
  nameText : Option String
  priceText : Option (Option String)
  specs : List SpecCell
deriving DecidableEq, Repr

/-- A console emission of the pipeline, by source site in the code:
`unknownSpec` for line 182, `missingCustom` for line 199, `itemError` for
the catch-block `console.error` at line 212. -/
inductive LogEntry where
  | unknownSpec (label : String)
  | missingCustom (fieldName : String)
  | itemError
deriving DecidableEq, Repr

/-- The per-category section of the serialization mapping table:
raw spec label → (snake-case field name, serialization kind);
`none` models an absent key in `map[endpoint]`. -/
abbrev MapSection := String → Option (String × SerKind)

/-- The per-category section of the custom-serializer registry
(`customSerializers[endpoint]?.[snakeSpecName]`).  A registered
serializer is a JS function and may throw, hence `Except`. -/
abbrev Customs := String → Option (String → Except Unit Value)

/-- The generic serializer `genericSerialize(value, kind)` from
`serializers.ts` (external input to `scrape`). -/
abbrev Generic := String → SerKind → Value

/-- JS `String.prototype.trim()`: strip leading and trailing whitespace
(space, tab, carriage return, newline). -/
def jsTrim (s : String) : String :=
  ⟨((s.data.dropWhile Char.isWhitespace).reverse.dropWhile
      Char.isWhitespace).reverse⟩

/-- `innerText.replaceAll('\n', ' ')` at line 163: the pattern is a
single character, so this is a per-character substitution. -/
def collapseNewlines (s : String) : String :=
  ⟨s.data.map (fun c => if c = '\n' then ' ' else c)⟩

/-- Digit-string to number accumulator. -/
def natFromDigits (ds : List Char) : ℕ :=
  ds.foldl (fun a c => 10 * a + (c.toNat - 48)) 0

/-- Modelled from the spec: `serializeNumber` lives in `serializers.ts`,
which is absent from the snapshot.  Spec 4.1: for `number`, parse
digits/decimal separator and currency symbols, discarding non-numeric
decoration, returning null if nothing numeric is found. -/
def parseDecimal (s : String) : Option ℚ :=
  let cs := s.toList.filter (fun c => c.isDigit || c = '.')
  if cs.all (fun c => !c.isDigit) then none
  else
    let ip := cs.takeWhile (fun c => c ≠ '.')
    let fp := ((cs.dropWhile (fun c => c ≠ '.')).drop 1).takeWhile Char.isDigit
    some ((natFromDigits ip : ℚ) + (natFromDigits fp : ℚ) / (10 : ℚ) ^ fp.length)

/-- Modelled from the spec (see `parseDecimal`): the numeric serializer
used for the price column; null when nothing numeric is found. -/
def serializeNumber (s : String) : Value :=
  match parseDecimal s with
  | none => Value.null
  | some q => Value.num q

/-- Line 171: `priceText ? serializeNumber(priceText) : null` — JS
truthiness sends both `null` and the empty string to the null branch. -/
def priceValue (pt : Option String) : Value :=
  match pt with
  | none => Value.null
  | some s => if s = "" then Value.null else serializeNumber s

/-- The spec-cell loop, lines 175-208: for each cell, read the label
(throwing if the node is missing), look it up in the mapping section
(warn and skip when unknown), read the raw value, and assign
null / custom-serialized / generically-serialized output.  Returns the
updated record (`none` when an exception escaped to the item's catch)
together with the warnings emitted. -/
def processSpecs (gen : Generic) (customs : Customs) (mapL : MapSection) :
    List SpecCell → Part → Option Part × List LogEntry
  | [], p => (some p, [])
  | c :: rest, p =>
    match c.label with
    | none => (none, [])
    | some raw =>
      match mapL (jsTrim raw) with
      | none =>
          ((processSpecs gen customs mapL rest p).1,
           LogEntry.unknownSpec (jsTrim raw) ::
             (processSpecs gen customs mapL rest p).2)
      | some (fn, kind) =>
        match c.value with
        | none => processSpecs gen customs mapL rest (setField p fn Value.null)
        | some v =>
          if jsTrim v = "" then
            processSpecs gen customs mapL rest (setField p fn Value.null)
          else if kind = SerKind.custom then
            match customs fn with
            | none =>
                ((processSpecs gen customs mapL rest
                    (setField p fn Value.null)).1,
                 LogEntry.missingCustom fn ::
                   (processSpecs gen customs mapL rest
                     (setField p fn Value.null)).2)
            | some f =>
              match f v with
              | Except.error _ => (none, [])
              | Except.ok val =>
                  processSpecs gen customs mapL rest (setField p fn val)
          else
            processSpecs gen customs mapL rest (setField p fn (gen v kind))

/-- The tail of the per-item try/catch, lines 210-213: a completed item
keeps its record and warnings; a thrown item (spec loop escaped) yields
no record and the catch block's `console.error` entry is emitted after
the warnings already printed. -/
def itemLog (r : Option Part × List LogEntry) :
    Option Part × List LogEntry :=
  match r.1 with
  | some _ => r
  | none => (none, r.2 ++ [LogEntry.itemError])

/-- One `.tr__product` item, lines 157-213: the try block extracts
name (collapsing newlines to spaces) and price, then runs the spec loop;
any rejection inside is caught, yielding `none` plus the catch block's
`console.error` entry. -/
def processItem (gen : Generic) (customs : Customs) (mapL : MapSection)
    (it : Item) : Option Part × List LogEntry :=
  match it.nameText with
  | none => (none, [LogEntry.itemError])
  | some nm =>
    match it.priceText with
    | none => (none, [LogEntry.itemError])
    | some pt =>
      itemLog (processSpecs gen customs mapL it.specs
        (setField (setField [] "name" (Value.str (collapseNewlines nm)))
          "price" (priceValue pt)))

/-- The `-n` limit as held by the module-level `limit` variable:
`none` = `Infinity`. -/
abbrev Limit := Option ℕ

/-- Line 216 / 225: `pageProducts.length >= limit` (always false for
`Infinity`). -/
def limitHit : Limit → ℕ → Bool
  | none, _ => false
  | some k, n => k ≤ n

/-- `pageProducts` after one iteration of the item loop: the record is
pushed if the try block completed (line 210), otherwise the array is
unchanged. -/
def stepAccum (acc : List Part) : Option Part → List Part
  | some p => acc ++ [p]
  | none => acc

/-- The item loop over one page's `.tr__product` rows, lines 157-220:
successful items are pushed onto `pageProducts` (`acc`), failed ones are
dropped, and the loop breaks as soon as `pageProducts.length >= limit`
(checked after each item, including failed ones). -/
def processItems (gen : Generic) (customs : Customs) (mapL : MapSection)
    (limit : Limit) : List Item → List Part → List Part × List LogEntry
  | [], acc => (acc, [])
  | it :: rest, acc =>
    if limitHit limit
        (stepAccum acc (processItem gen customs mapL it).1).length then
      (stepAccum acc (processItem gen customs mapL it).1,
       (processItem gen customs mapL it).2)
    else
      ((processItems gen customs mapL limit rest
          (stepAccum acc (processItem gen customs mapL it).1)).1,
       (processItem gen customs mapL it).2 ++
         (processItems gen customs mapL limit rest
           (stepAccum acc (processItem gen customs mapL it).1)).2)

/-- The catalog site as one category's extractor observes it.
`numPages` is the pagination count read by `getNumPages` (`none` = the
pagination control is missing or navigation rejects, so `getNumPages`
throws); `pages p` is the list of product rows of page `p` (`none` = the
page-level navigation / network-idle wait / row query for that page
rejects, which also models a job timeout striking at that suspension
point). -/
structure Site where
  numPages : Option ℕ
  pages : ℕ → Option (List Item)

/-- How one category's generator ended: normal exhaustion of the page
loop, or an exception propagated out of the generator. -/
inductive ScrapeOutcome where
  | completed
  | aborted
deriving DecidableEq, Repr

/-- The page loop of `scrape`, lines 146-228: starting at page `cur`
with `fuel` pages left, yield one batch per page; after each yield,
break out of the page loop if the limit was hit within the batch.  A
page-level rejection aborts the generator; batches already yielded stay
yielded. -/
def scrapePages (gen : Generic) (customs : Customs) (mapL : MapSection)
    (limit : Limit) (site : Site) :
    ℕ → ℕ → List (List Part) × ScrapeOutcome
  | _, 0 => ([], ScrapeOutcome.completed)
  | cur, fuel + 1 =>
    match site.pages cur with
    | none => ([], ScrapeOutcome.aborted)
    | some items =>
      if limitHit limit
          ((processItems gen customs mapL limit items []).1).length then
        ([(processItems gen customs mapL limit items []).1],
         ScrapeOutcome.completed)
      else
        ((processItems gen customs mapL limit items []).1 ::
           (scrapePages gen customs mapL limit site (cur + 1) fuel).1,
         (scrapePages gen customs mapL limit site (cur + 1) fuel).2)

/-- The async generator `scrape`, lines 127-231: discover the page count
(a failure there aborts before any batch is yielded), then run the page
loop for pages `1..numPages`.  Returns the yielded batches in yield
order, and how the generator ended. -/
def scrape (gen : Generic) (customs : Customs) (mapL : MapSection)
    (limit : Limit) (site : Site) : List (List Part) × ScrapeOutcome :=
  match site.numPages with
  | none => ([], ScrapeOutcome.aborted)
  | some n => scrapePages gen customs mapL limit site 1 n

/-- What the per-category cluster task leaves behind: either no file at
all, or one JSON artifact with a name and an array of records. -/
inductive TaskResult where
  | noOutput
  | file (name : String) (contents : List Part)
deriving DecidableEq, Repr

/-- The cluster task, lines 63-91: accumulate every yielded batch into
`allParts`; on normal completion write `<endpoint>.json`; when the
generator (or the progress-bar page-count fetch, covered by
`Site.numPages = none`) throws, write `<endpoint>.incomplete.json` if
anything was accumulated and nothing otherwise. -/
def runTask (endpoint : String) (gen : Generic) (customs : Customs)
    (mapL : MapSection) (limit : Limit) (site : Site) : TaskResult :=
  match (scrape gen customs mapL limit site).2 with
  | ScrapeOutcome.completed =>
      TaskResult.file (endpoint ++ ".json")
        (scrape gen customs mapL limit site).1.flatten
  | ScrapeOutcome.aborted =>
      if ((scrape gen customs mapL limit site).1.flatten).length = 0 then
        TaskResult.noOutput
      else
        TaskResult.file (endpoint ++ ".incomplete.json")
          (scrape gen customs mapL limit site).1.flatten

/-- The run-level environment: whether the pre-flight
`waitForSelector('nav')` on the site root succeeds within its timeout,
and each endpoint's site content. -/
structure RunEnv where
  preflightOk : Bool
  sites : String → Site

/-- The observable outcome of one whole process run. -/
structure RunResult where
  jobsQueued : List String
  artifacts : List (String × List Part)
  exitCode : ℕ
deriving DecidableEq, Repr

/-- `scrapeInParallel`, lines 50-114, plus process termination:
the root job navigates to the site root and waits for `nav`; on failure
it logs and returns without queueing any endpoint, on success it queues
every endpoint, whose tasks then run `runTask`.  The program contains no
`process.exit` call and `scrapeInParallel`'s promise resolves on both
paths, so the Node process exits 0 in either case. -/
def runAll (endpoints : List String) (gen : Generic)
    (customsFor : String → Customs) (mapFor : String → MapSection)
    (limit : Limit) (env : RunEnv) : RunResult :=
  if env.preflightOk then
    { jobsQueued := endpoints
      artifacts := endpoints.filterMap (fun e =>
        match runTask e gen (customsFor e) (mapFor e) limit (env.sites e) with
        | TaskResult.noOutput => none
        | TaskResult.file n c => some (n, c))
      exitCode := 0 }
  else
    { jobsQueued := [], artifacts := [], exitCode := 0 }

/-- The fixed category list `ALL_ENDPOINTS`, lines 18-44. -/
def ALL_ENDPOINTS : List String :=
  ["cpu", "cpu-cooler", "motherboard", "memory", "internal-hard-drive",
   "video-card", "case", "power-supply", "os", "monitor", "sound-card",
   "wired-network-card", "wireless-network-card", "headphones", "keyboard",
   "mouse", "speakers", "webcam", "case-accessory", "case-fan",
   "fan-controller", "thermal-paste", "external-hard-drive",
   "optical-drive", "ups"]

/-- Lines 233-236: `process.argv.slice(2)` is used verbatim as the
endpoint list whenever it is non-empty; only an entirely empty argument
vector falls back to `ALL_ENDPOINTS`. -/
def endpointsToScrape (argv : List String) : List String :=
  if argv.isEmpty then ALL_ENDPOINTS else argv

/-! ### Concrete fixtures used by witnesses and counterexamples -/

/-- A degenerate generic serializer (concrete instance for witnesses). -/
def gen0 : Generic := fun _ _ => Value.null

/-- An empty custom-serializer section. -/
def customs0 : Customs := fun _ => none

/-- An empty mapping-table section. -/
def map0 : MapSection := fun _ => none

/-- A product row that extracts cleanly: name `"A"`, price cell present
with null textContent, no spec cells. -/
def okItem : Item :=
  { nameText := some "A", priceText := some none, specs := [] }

/-- A product row whose name node is missing, so its `$eval` rejects. -/
def badItem : Item :=
  { nameText := none, priceText := some none, specs := [] }

/-- A three-page category, one clean item per page. -/
def site3 : Site :=
  { numPages := some 3, pages := fun _ => some [okItem] }

/-- A two-page category whose second page's navigation rejects. -/
def siteAbort : Site :=
  { numPages := some 2,
    pages := fun p => if p = 1 then some [okItem] else none }

/-- A run environment whose pre-flight reachability check fails. -/
def env0 : RunEnv :=
  { preflightOk := false,
    sites := fun _ => { numPages := none, pages := fun _ => none } }

/-! ### Claims -/

/-- Claim C1: when a category job ends with an unrecoverable extractor
failure (the generator aborts, which covers page-count discovery
failures, navigation errors and job timeouts at any suspension point),
the task writes nothing if zero records were accumulated, and otherwise
writes exactly the accumulated records — the concatenation of the
yielded batches, in yield order — under the `.incomplete`-marked name. -/
theorem C1_partial_write_policy (endpoint : String) (gen : Generic)
    (customs : Customs) (mapL : MapSection) (limit : Limit) (site : Site)
    (h : (scrape gen customs mapL limit site).2 = ScrapeOutcome.aborted) :
    ((scrape gen customs mapL limit site).1.flatten = [] →
      runTask endpoint gen customs mapL limit site = TaskResult.noOutput) ∧
    ((scrape gen customs mapL limit site).1.flatten ≠ [] →
      runTask endpoint gen customs mapL limit site =
        TaskResult.file (endpoint ++ ".incomplete.json")
          (scrape gen customs mapL limit site).1.flatten) := by
  refine ⟨fun he => ?_, fun hne => ?_⟩
  · unfold runTask
    rw [h]
    simp [he]
  · unfold runTask
    rw [h]
    show (if ((scrape gen customs mapL limit site).1.flatten).length = 0
        then TaskResult.noOutput
        else TaskResult.file (endpoint ++ ".incomplete.json")
          (scrape gen customs mapL limit site).1.flatten) =
      TaskResult.file (endpoint ++ ".incomplete.json")
        (scrape gen customs mapL limit site).1.flatten
    rw [if_neg (fun h0 => hne (List.length_eq_zero.mp h0))]

/-- Witness for C1 at a concrete aborting site that yielded one record
before page 2's navigation failed. -/
theorem C1_witness :
    runTask "cpu" gen0 customs0 map0 none siteAbort =
      TaskResult.file ("cpu" ++ ".incomplete.json")
        (scrape gen0 customs0 map0 none siteAbort).1.flatten :=
  (C1_partial_write_policy "cpu" gen0 customs0 map0 none siteAbort
    (by rfl)).2 (by decide)

/-- Counterexample to claim C2 as stated: with the cap `-n 2` set, a
three-page category with one item per page produces 3 records in total —
the limit check compares the per-page `pageProducts.length`, which
resets on every page, so the category total exceeds the cap and all
three pages are fetched. -/
theorem C2_counterexample :
    (scrape gen0 customs0 map0 (some 2) site3).1.flatten.length = 3 ∧
    ¬ (scrape gen0 customs0 map0 (some 2) site3).1.flatten.length ≤ 2 ∧
    (scrape gen0 customs0 map0 (some 2) site3).2 =
      ScrapeOutcome.completed := by
  refine ⟨rfl, by decide, rfl⟩

/-- Counterexample to claim C3 as stated: when the pre-flight check
fails, no job is queued and no artifact is written, but the process
exits 0 — the failure path only logs, the program never calls
`process.exit`, and `scrapeInParallel` resolves normally — so the
claimed non-zero exit code does not hold. -/
theorem C3_counterexample :
    env0.preflightOk = false ∧
    (runAll ["cpu"] gen0 (fun _ => customs0) (fun _ => map0) none
      env0).jobsQueued = [] ∧
    (runAll ["cpu"] gen0 (fun _ => customs0) (fun _ => map0) none
      env0).artifacts = [] ∧
    (runAll ["cpu"] gen0 (fun _ => customs0) (fun _ => map0) none
      env0).exitCode = 0 := by
  refine ⟨rfl, rfl, rfl, rfl⟩

/-- Amended claim C3: if the pre-flight reachability check fails, the
run terminates with no category job queued and no artifact written, and
the process exit code is 0 (the failure is reported on the console but
is not reflected in the exit status). -/
theorem C3_amended_preflight (endpoints : List String) (gen : Generic)
    (customsFor : String → Customs) (mapFor : String → MapSection)
    (limit : Limit) (env : RunEnv) (h : env.preflightOk = false) :
    (runAll endpoints gen customsFor mapFor limit env).jobsQueued = [] ∧
    (runAll endpoints gen customsFor mapFor limit env).artifacts = [] ∧
    (runAll endpoints gen customsFor mapFor limit env).exitCode = 0 := by
  unfold runAll
  rw [h]
  exact ⟨rfl, rfl, rfl⟩

/-- Witness for the amended C3 at a concrete failing environment. -/
theorem C3_amended_witness :
    (runAll ["cpu"] gen0 (fun _ => customs0) (fun _ => map0) none
      env0).jobsQueued = [] ∧
    (runAll ["cpu"] gen0 (fun _ => customs0) (fun _ => map0) none
      env0).artifacts = [] ∧
    (runAll ["cpu"] gen0 (fun _ => customs0) (fun _ => map0) none
      env0).exitCode = 0 :=
  C3_amended_preflight ["cpu"] gen0 (fun _ => customs0) (fun _ => map0)
    none env0 (by rfl)

/-- The limit comparison for a finite cap is `limit <= length`. -/
theorem limitHit_some (k n : ℕ) : limitHit (some k) n = true ↔ k ≤ n := by
  simp [limitHit]

/-- With `limit = Infinity` the check at lines 216/225 is never hit. -/
theorem limitHit_none (n : ℕ) : limitHit none n = false := rfl

/-- Unfolding step of the item loop when the current item fails and the
cap is not hit: the item is dropped, its logs kept, and the loop
continues with `pageProducts` unchanged. -/
theorem processItems_cons_of_none (gen : Generic) (customs : Customs)
    (mapL : MapSection) (limit : Limit) (it : Item) (rest : List Item)
    (acc : List Part) (hp : (processItem gen customs mapL it).1 = none)
    (hl : limitHit limit acc.length = false) :
    processItems gen customs mapL limit (it :: rest) acc =
      ((processItems gen customs mapL limit rest acc).1,
       (processItem gen customs mapL it).2 ++
         (processItems gen customs mapL limit rest acc).2) := by
  simp only [processItems]
  rw [hp]
  simp only [stepAccum]
  rw [hl]
  simp only [Bool.false_eq_true, if_false]

/-- Unfolding step of the item loop when the current item succeeds and
the cap is still not hit after pushing it: the record is pushed and the
loop continues. -/
theorem processItems_cons_of_some (gen : Generic) (customs : Customs)
    (mapL : MapSection) (limit : Limit) (it : Item) (rest : List Item)
    (acc : List Part) (p : Part)
    (hp : (processItem gen customs mapL it).1 = some p)
    (hl : limitHit limit (acc ++ [p]).length = false) :
    processItems gen customs mapL limit (it :: rest) acc =
      ((processItems gen customs mapL limit rest (acc ++ [p])).1,
       (processItem gen customs mapL it).2 ++
         (processItems gen customs mapL limit rest (acc ++ [p])).2) := by
  simp only [processItems]
  rw [hp]
  simp only [stepAccum]
  rw [hl]
  simp only [Bool.false_eq_true, if_false]

/-- The item loop never grows `pageProducts` past a finite cap, provided
it starts below it: the check after each item breaks as soon as the cap
is reached. -/
theorem processItems_length_le (gen : Generic) (customs : Customs)
    (mapL : MapSection) (k : ℕ) :
    ∀ (items : List Item) (acc : List Part), acc.length < k →
      ((processItems gen customs mapL (some k) items acc).1).length ≤ k := by
  intro items
  induction items with
  | nil => intro acc h; exact Nat.le_of_lt h
  | cons it rest ih =>
    intro acc h
    simp only [processItems]
    rcases hp : (processItem gen customs mapL it).1 with _ | p
    · simp only [stepAccum]
      split
      next hl => exact Nat.le_of_lt h
      next hl => exact ih acc h
    · simp only [stepAccum]
      split
      next hl =>
        show (acc ++ [p]).length ≤ k
        simp only [List.length_append, List.length_singleton]
        omega
      next hl =>
        refine ih (acc ++ [p]) ?_
        have hl' : ¬ k ≤ (acc ++ [p]).length := by
          simpa [limitHit] using hl
        omega

/-- Every batch yielded by the page loop under a finite cap `k ≥ 1` has
at most `k` records. -/
theorem scrapePages_batch_le (gen : Generic) (customs : Customs)
    (mapL : MapSection) (k : ℕ) (site : Site) (hk : 1 ≤ k) :
    ∀ (fuel cur : ℕ),
      ∀ b ∈ (scrapePages gen customs mapL (some k) site cur fuel).1,
        b.length ≤ k := by
  intro fuel
  induction fuel with
  | zero => intro cur b hb; simp [scrapePages] at hb
  | succ n ih =>
    intro cur b hb
    unfold scrapePages at hb
    split at hb
    next => simp at hb
    next items heq =>
      split at hb
      next hl =>
        have hb' : b = (processItems gen customs mapL (some k) items []).1 := by
          simpa using hb
        subst hb'
        exact processItems_length_le gen customs mapL k items []
          (by simpa using hk)
      next hl =>
        have hb' : b ∈ (processItems gen customs mapL (some k) items []).1 ::
            (scrapePages gen customs mapL (some k) site (cur + 1) n).1 := hb
        rcases List.mem_cons.mp hb' with rfl | hmem
        · exact processItems_length_le gen customs mapL k items []
            (by simpa using hk)
        · exact ih (cur + 1) b hmem

/-- A batch that is not the last one yielded has strictly fewer than `k`
records: had it reached `k`, the loop would have broken after yielding
it, so no later batch could exist. -/
theorem scrapePages_nonlast_lt (gen : Generic) (customs : Customs)
    (mapL : MapSection) (k : ℕ) (site : Site) :
    ∀ (fuel cur : ℕ),
      ∀ b ∈ (scrapePages gen customs mapL (some k) site cur fuel).1.dropLast,
        b.length < k := by
  intro fuel
  induction fuel with
  | zero => intro cur b hb; simp [scrapePages] at hb
  | succ n ih =>
    intro cur b hb
    unfold scrapePages at hb
    split at hb
    next => simp at hb
    next items heq =>
      split at hb
      next hl => simp at hb
      next hl =>
        have hb' : b ∈ ((processItems gen customs mapL (some k) items []).1 ::
            (scrapePages gen customs mapL (some k) site (cur + 1) n).1).dropLast :=
          hb
        rcases htail : (scrapePages gen customs mapL (some k) site
            (cur + 1) n).1 with _ | ⟨x, xs⟩
        · rw [htail] at hb'
          simp at hb'
        · rw [htail] at hb'
          rw [List.dropLast_cons₂] at hb'
          rcases List.mem_cons.mp hb' with rfl | hmem
          · simp only [limitHit, decide_eq_true_eq] at hl
            omega
          · exact ih (cur + 1) b (htail ▸ hmem)

/-- Amended claim C2: with `-n k` (k ≥ 1) set, no single page batch
exceeds `k` records, and as soon as a batch reaches `k` records the
sequence terminates with that batch — every non-final batch has fewer
than `k` records, so no page is fetched beyond the one yielding the
`k`-th record of a page.  The counter is `pageProducts.length`, which
resets on every page, so the cap is per page, not per category (see
`C2_counterexample`). -/
theorem C2_amended_per_page_cap (gen : Generic) (customs : Customs)
    (mapL : MapSection) (k : ℕ) (site : Site) (hk : 1 ≤ k) :
    (∀ b ∈ (scrape gen customs mapL (some k) site).1, b.length ≤ k) ∧
    (∀ b ∈ (scrape gen customs mapL (some k) site).1.dropLast,
      b.length < k) := by
  unfold scrape
  split
  · exact ⟨by simp, by simp⟩
  · exact ⟨fun b hb => scrapePages_batch_le gen customs mapL k site hk _ 1 b hb,
      fun b hb => scrapePages_nonlast_lt gen customs mapL k site _ 1 b hb⟩

/-- Witness for the amended C2 at the concrete three-page site with cap
2: its first batch respects the per-page bound. -/
theorem C2_amended_witness :
    ((processItems gen0 customs0 map0 (some 2) [okItem] []).1).length ≤ 2 :=
  (C2_amended_per_page_cap gen0 customs0 map0 2 site3 (by decide)).1
    ((processItems gen0 customs0 map0 (some 2) [okItem] []).1) (by decide)

/-- A failing item always leaves the catch block's `console.error` entry
in its log output. -/
theorem processItem_none_logs (gen : Generic) (customs : Customs)
    (mapL : MapSection) (it : Item)
    (h : (processItem gen customs mapL it).1 = none) :
    LogEntry.itemError ∈ (processItem gen customs mapL it).2 := by
  rcases it with ⟨nT, pT, specs⟩
  rcases nT with _ | nm
  · simp [processItem]
  · rcases pT with _ | pt
    · simp [processItem]
    · have he : processItem gen customs mapL ⟨some nm, some pt, specs⟩
          = itemLog (processSpecs gen customs mapL specs
            (setField (setField [] "name" (Value.str (collapseNewlines nm)))
              "price" (priceValue pt))) := rfl
      rw [he] at h ⊢
      rcases hps : processSpecs gen customs mapL specs
          (setField (setField [] "name" (Value.str (collapseNewlines nm)))
            "price" (priceValue pt)) with ⟨r1, log⟩
      rcases r1 with _ | p'
      · exact List.mem_append_right log (List.mem_singleton_self _)
      · rw [hps] at h
        exact (Option.some_ne_none p' h).elim

/-- Claim C5: a failing item (any rejection inside the per-item try
block) is caught and logged, it is dropped from its page batch, and the
remaining items of the page are still processed: with no cap configured,
the batch built from the item list with the failing item present equals
the batch built with it removed, and the catch block's log entry is
emitted.  (The page and job loops are unaffected: the batch is still
yielded, see `C6_one_batch_per_page`.) -/
theorem C5_item_fault_isolation (gen : Generic) (customs : Customs)
    (mapL : MapSection) (pre post : List Item) (bad : Item)
    (acc : List Part)
    (hbad : (processItem gen customs mapL bad).1 = none) :
    (processItems gen customs mapL none (pre ++ bad :: post) acc).1
      = (processItems gen customs mapL none (pre ++ post) acc).1 ∧
    LogEntry.itemError ∈
      (processItems gen customs mapL none (pre ++ bad :: post) acc).2 := by
  induction pre generalizing acc with
  | nil =>
    rw [List.nil_append,
      processItems_cons_of_none gen customs mapL none bad post acc hbad
        (limitHit_none _)]
    exact ⟨rfl, List.mem_append_left _
      (processItem_none_logs gen customs mapL bad hbad)⟩
  | cons a pre ih =>
    rw [List.cons_append, List.cons_append]
    rcases hp : (processItem gen customs mapL a).1 with _ | p
    · rw [processItems_cons_of_none gen customs mapL none a
          (pre ++ bad :: post) acc hp (limitHit_none _),
        processItems_cons_of_none gen customs mapL none a
          (pre ++ post) acc hp (limitHit_none _)]
      exact ⟨(ih acc).1, List.mem_append_right _ (ih acc).2⟩
    · rw [processItems_cons_of_some gen customs mapL none a
          (pre ++ bad :: post) acc p hp (limitHit_none _),
        processItems_cons_of_some gen customs mapL none a
          (pre ++ post) acc p hp (limitHit_none _)]
      exact ⟨(ih (acc ++ [p])).1,
        List.mem_append_right _ (ih (acc ++ [p])).2⟩

/-- Witness for C5: a failing item between two good ones is dropped and
logged while the rest of the page is still processed. -/
theorem C5_witness :
    (processItems gen0 customs0 map0 none [okItem, badItem, okItem] []).1
      = (processItems gen0 customs0 map0 none [okItem, okItem] []).1 ∧
    LogEntry.itemError ∈
      (processItems gen0 customs0 map0 none [okItem, badItem, okItem] []).2 :=
  C5_item_fault_isolation gen0 customs0 map0 [okItem] [okItem] badItem []
    (by decide)

/-- With no cap configured and every page in range loading, the page
loop yields exactly one batch per page, in ascending page order, and
completes normally. -/
theorem scrapePages_no_limit (gen : Generic) (customs : Customs)
    (mapL : MapSection) (site : Site) (itemsOf : ℕ → List Item) :
    ∀ (fuel cur : ℕ),
      (∀ p, cur ≤ p → p < cur + fuel → site.pages p = some (itemsOf p)) →
      scrapePages gen customs mapL none site cur fuel =
        ((List.range fuel).map (fun i =>
          (processItems gen customs mapL none (itemsOf (cur + i)) []).1),
         ScrapeOutcome.completed) := by
  intro fuel
  induction fuel with
  | zero => intro cur _; simp [scrapePages]
  | succ n ih =>
    intro cur h
    unfold scrapePages
    rw [h cur (le_refl cur) (by omega)]
    simp only [limitHit_none, Bool.false_eq_true, if_false]
    rw [ih (cur + 1) (fun p hp1 hp2 => h p (by omega) (by omega))]
    have harg : ∀ i : ℕ, cur + 1 + i = cur + (i + 1) := fun i => by omega
    simp only [List.range_succ_eq_map, List.map_cons, List.map_map,
      Nat.add_zero, harg]
    have htail : (fun i : ℕ =>
        (processItems gen customs mapL none (itemsOf (cur + (i + 1))) []).1)
        = ((fun i : ℕ =>
            (processItems gen customs mapL none (itemsOf (cur + i)) []).1) ∘
          Nat.succ) := by
      funext i
      rfl
    rw [htail]

/-- Claim C6: with no item cap configured and `totalPages = n` pages all
reachable, the extractor yields exactly `n` batches — the batch at
position `i` being the one extracted from page `i + 1`, so pages appear
in strictly increasing order — the generator completes normally, and the
sink writes the batches' concatenation, in that same order, under the
category's normal artifact name. -/
theorem C6_one_batch_per_page (endpoint : String) (gen : Generic)
    (customs : Customs) (mapL : MapSection) (site : Site) (n : ℕ)
    (itemsOf : ℕ → List Item)
    (hn : site.numPages = some n)
    (hp : ∀ p, 1 ≤ p → p < 1 + n → site.pages p = some (itemsOf p)) :
    (scrape gen customs mapL none site).1 =
      (List.range n).map (fun i =>
        (processItems gen customs mapL none (itemsOf (1 + i)) []).1) ∧
    (scrape gen customs mapL none site).1.length = n ∧
    (scrape gen customs mapL none site).2 = ScrapeOutcome.completed ∧
    runTask endpoint gen customs mapL none site =
      TaskResult.file (endpoint ++ ".json")
        (scrape gen customs mapL none site).1.flatten := by
  have hs : scrape gen customs mapL none site =
      ((List.range n).map (fun i =>
        (processItems gen customs mapL none (itemsOf (1 + i)) []).1),
       ScrapeOutcome.completed) := by
    unfold scrape
    rw [hn]
    exact scrapePages_no_limit gen customs mapL site itemsOf n 1 hp
  refine ⟨by rw [hs], by rw [hs]; simp, by rw [hs], ?_⟩
  unfold runTask
  rw [hs]

/-- Witness for C6 at the concrete three-page site. -/
theorem C6_witness :
    (scrape gen0 customs0 map0 none site3).1 =
      (List.range 3).map (fun _ =>
        (processItems gen0 customs0 map0 none [okItem] []).1) ∧
    (scrape gen0 customs0 map0 none site3).1.length = 3 ∧
    (scrape gen0 customs0 map0 none site3).2 = ScrapeOutcome.completed ∧
    runTask "memory" gen0 customs0 map0 none site3 =
      TaskResult.file ("memory" ++ ".json")
        (scrape gen0 customs0 map0 none site3).1.flatten :=
  C6_one_batch_per_page "memory" gen0 customs0 map0 site3 3
    (fun _ => [okItem]) (by rfl) (fun p _ _ => by rfl)

/-- Reading back the field just assigned gives the assigned value. -/
theorem getField_setField_self (p : Part) (k : String) (v : Value) :
    getField (setField p k v) k = some v := by
  induction p with
  | nil => simp [setField, getField]
  | cons e rest ih =>
    by_cases he : e.1 = k
    · simp [setField, getField, he]
    · simp [setField, getField, he, ih]

/-- Assigning one field leaves every other field unchanged. -/
theorem getField_setField_ne (p : Part) (k : String) (v : Value)
    (k' : String) (hne : k' ≠ k) :
    getField (setField p k v) k' = getField p k' := by
  induction p with
  | nil =>
    have h1 : ¬ (k = k') := fun h => hne h.symm
    simp [setField, getField, h1]
  | cons e rest ih =>
    by_cases he : e.1 = k
    · simp only [setField, he, if_true, if_pos trivial]
      have h1 : ¬ (k = k') := fun h => hne h.symm
      have h2 : ¬ (e.1 = k') := he ▸ h1
      simp [getField, h1, h2]
    · simp only [setField, he, ite_false, if_false]
      by_cases he' : e.1 = k'
      · simp [getField, he']
      · simp [getField, he', ih]

/-- The spec-cell loop only writes fields named by the mapping section:
any key no mapping entry ever targets reads the same before and after
the loop (when the loop completes without throwing). -/
theorem processSpecs_preserves (gen : Generic) (customs : Customs)
    (mapL : MapSection) (key : String)
    (hmap : ∀ raw fn kd, mapL raw = some (fn, kd) → fn ≠ key) :
    ∀ (cells : List SpecCell) (p p' : Part),
      (processSpecs gen customs mapL cells p).1 = some p' →
      getField p' key = getField p key := by
  intro cells
  induction cells with
  | nil =>
    intro p p' h
    have hp : p = p' := Option.some.inj h
    rw [← hp]
  | cons c rest ih =>
    intro p p' h
    rcases hcl : c.label with _ | raw
    · simp only [processSpecs, hcl] at h
      exact absurd h (by simp)
    · rcases hm : mapL (jsTrim raw) with _ | ⟨fn, kd⟩
      · simp only [processSpecs, hcl, hm] at h
        exact ih p p' h
      · have hfn : fn ≠ key := hmap _ _ _ hm
        have hkey : ∀ w : Value,
            getField (setField p fn w) key = getField p key :=
          fun w => getField_setField_ne p fn w key (Ne.symm hfn)
        rcases hcv : c.value with _ | v
        · simp only [processSpecs, hcl, hm, hcv] at h
          rw [ih (setField p fn Value.null) p' h]
          exact hkey Value.null
        · by_cases hvt : jsTrim v = ""
          · simp only [processSpecs, hcl, hm, hcv, hvt, ite_true] at h
            rw [ih (setField p fn Value.null) p' h]
            exact hkey Value.null
          · by_cases hkd : kd = SerKind.custom
            · subst hkd
              rcases hc : customs fn with _ | f
              · simp only [processSpecs, hcl, hm, hcv, hvt, hc, ite_false,
                  if_false] at h
                rw [if_pos trivial] at h
                rw [ih (setField p fn Value.null) p' h]
                exact hkey Value.null
              · rcases hf : f v with e | val
                · simp only [processSpecs, hcl, hm, hcv, hvt, hc, hf,
                    ite_false, if_false] at h
                  rw [if_pos trivial] at h
                  exact absurd h (by simp)
                · simp only [processSpecs, hcl, hm, hcv, hvt, hc, hf,
                    ite_false, if_false] at h
                  rw [if_pos trivial] at h
                  rw [ih (setField p fn val) p' h]
                  exact hkey val
            · simp only [processSpecs, hcl, hm, hcv, hvt, hkd, ite_false,
                if_false] at h
              rw [ih (setField p fn (gen v kd)) p' h]
              exact hkey (gen v kd)

/-- Modelled from the spec for the numeric path (see `parseDecimal`):
the price serializer only produces null or a number. -/
theorem priceValue_null_or_num (pt : Option String) :
    priceValue pt = Value.null ∨ ∃ q, priceValue pt = Value.num q := by
  rcases pt with _ | s
  · exact Or.inl rfl
  · by_cases hs : s = ""
    · subst hs
      exact Or.inl rfl
    · rcases hq : parseDecimal s with _ | q
      · refine Or.inl ?_
        show (if s = "" then Value.null else serializeNumber s) = Value.null
        rw [if_neg hs]
        show (match parseDecimal s with
          | none => Value.null
          | some q => Value.num q) = Value.null
        rw [hq]
      · refine Or.inr ⟨q, ?_⟩
        show (if s = "" then Value.null else serializeNumber s) = Value.num q
        rw [if_neg hs]
        show (match parseDecimal s with
          | none => Value.null
          | some q => Value.num q) = Value.num q
        rw [hq]

/-- A successfully processed item's record always carries the name
string assigned at line 161 and the price value assigned at line 171:
the spec loop cannot overwrite them when no mapping entry targets
`name` or `price`. -/
theorem processItem_fields (gen : Generic) (customs : Customs)
    (mapL : MapSection)
    (hmapN : ∀ raw fn kd, mapL raw = some (fn, kd) → fn ≠ "name")
    (hmapP : ∀ raw fn kd, mapL raw = some (fn, kd) → fn ≠ "price")
    (it : Item) (p' : Part)
    (h : (processItem gen customs mapL it).1 = some p') :
    (∃ s, getField p' "name" = some (Value.str s)) ∧
    (∃ pt, it.priceText = some pt ∧
      getField p' "price" = some (priceValue pt)) := by
  rcases it with ⟨nT, pT, specs⟩
  rcases nT with _ | nm
  · exact Option.noConfusion h
  · rcases pT with _ | pt
    · exact Option.noConfusion h
    · have he : processItem gen customs mapL ⟨some nm, some pt, specs⟩
          = itemLog (processSpecs gen customs mapL specs
            (setField (setField [] "name"
              (Value.str (collapseNewlines nm))) "price"
              (priceValue pt))) := rfl
      rw [he] at h
      rcases hps : processSpecs gen customs mapL specs
          (setField (setField [] "name" (Value.str (collapseNewlines nm)))
            "price" (priceValue pt)) with ⟨r1, log⟩
      rw [hps] at h
      rcases r1 with _ | q
      · exact Option.noConfusion h
      · have hq : q = p' := Option.some.inj h
        subst hq
        have h1 := congrArg Prod.fst hps
        have hname := processSpecs_preserves gen customs mapL "name" hmapN
          specs _ q h1
        have hprice := processSpecs_preserves gen customs mapL "price" hmapP
          specs _ q h1
        refine ⟨⟨collapseNewlines nm, ?_⟩, ⟨pt, rfl, ?_⟩⟩
        · rw [hname]
          rfl
        · rw [hprice]
          rfl

/-- Every record of the item loop's output either was already in the
accumulator or is the successful output of processing some item. -/
theorem processItems_mem (gen : Generic) (customs : Customs)
    (mapL : MapSection) (limit : Limit) :
    ∀ (items : List Item) (acc : List Part) (p : Part),
      p ∈ (processItems gen customs mapL limit items acc).1 →
      p ∈ acc ∨ ∃ it, (processItem gen customs mapL it).1 = some p := by
  intro items
  induction items with
  | nil => intro acc p hp; exact Or.inl hp
  | cons it rest ih =>
    intro acc p hp
    simp only [processItems] at hp
    rcases hq : (processItem gen customs mapL it).1 with _ | q
    · rw [hq] at hp
      simp only [stepAccum] at hp
      split at hp
      next hl => exact Or.inl hp
      next hl => exact ih acc p hp
    · rw [hq] at hp
      simp only [stepAccum] at hp
      split at hp
      next hl =>
        rcases List.mem_append.mp hp with h1 | h1
        · exact Or.inl h1
        · have hpq : p = q := List.mem_singleton.mp h1
          exact Or.inr ⟨it, by rw [hq, hpq]⟩
      next hl =>
        rcases ih (acc ++ [q]) p hp with h1 | h2
        · rcases List.mem_append.mp h1 with h2 | h2
          · exact Or.inl h2
          · have hpq : p = q := List.mem_singleton.mp h2
            exact Or.inr ⟨it, by rw [hq, hpq]⟩
        · exact h2.elim (fun w hw => Or.inr ⟨w, hw⟩)

/-- Every batch the page loop yields is the item loop's output on some
page's item list, started from the empty accumulator. -/
theorem scrapePages_batches (gen : Generic) (customs : Customs)
    (mapL : MapSection) (limit : Limit) (site : Site) :
    ∀ (fuel cur : ℕ),
      ∀ b ∈ (scrapePages gen customs mapL limit site cur fuel).1,
        ∃ items, b = (processItems gen customs mapL limit items []).1 := by
  intro fuel
  induction fuel with
  | zero => intro cur b hb; simp [scrapePages] at hb
  | succ n ih =>
    intro cur b hb
    unfold scrapePages at hb
    split at hb
    next => simp at hb
    next items heq =>
      split at hb
      next hl =>
        have hb' : b = (processItems gen customs mapL limit items []).1 := by
          simpa using hb
        exact ⟨items, hb'⟩
      next hl =>
        have hb' : b ∈ (processItems gen customs mapL limit items []).1 ::
            (scrapePages gen customs mapL limit site (cur + 1) n).1 := hb
        rcases List.mem_cons.mp hb' with rfl | hmem
        · exact ⟨items, rfl⟩
        · exact ih (cur + 1) b hmem

/-- Claim C9: provided the category's mapping section never targets the
`name` or `price` output fields (true of the shipped serialization map),
every record appended to any yielded page batch carries a `name` field
holding a string and a `price` field holding null or a number — null in
particular whenever the raw price text was missing, see
`priceValue_null_or_num` and `processItem_fields`. -/
theorem C9_name_price_invariant (gen : Generic) (customs : Customs)
    (mapL : MapSection) (limit : Limit) (site : Site)
    (hmap : ∀ raw fn kd, mapL raw = some (fn, kd) →
      fn ≠ "name" ∧ fn ≠ "price") :
    ∀ b ∈ (scrape gen customs mapL limit site).1, ∀ p ∈ b,
      (∃ s, getField p "name" = some (Value.str s)) ∧
      (∃ v, getField p "price" = some v ∧
        (v = Value.null ∨ ∃ q, v = Value.num q)) := by
  intro b hb p hp
  have hsrc : ∃ items, b = (processItems gen customs mapL limit items []).1 := by
    unfold scrape at hb
    split at hb
    next => simp at hb
    next n heq => exact scrapePages_batches gen customs mapL limit site n 1 b hb
  rcases hsrc with ⟨items, rfl⟩
  rcases processItems_mem gen customs mapL limit items [] p hp with h0 | ⟨it, hit⟩
  · simp at h0
  · obtain ⟨⟨s, hs⟩, ⟨pt, hpt, hpr⟩⟩ := processItem_fields gen customs mapL
      (fun raw fn kd h => (hmap raw fn kd h).1)
      (fun raw fn kd h => (hmap raw fn kd h).2) it p hit
    exact ⟨⟨s, hs⟩, ⟨priceValue pt, hpr, priceValue_null_or_num pt⟩⟩

/-- The record extracted from `okItem`. -/
def okPart : Part := [("name", Value.str "A"), ("price", Value.null)]

/-- Witness for C9 at the concrete record extracted from `okItem` on
`site3` (whose price text is missing, so its price is null). -/
theorem C9_witness :
    (∃ s, getField okPart "name" = some (Value.str s)) ∧
    (∃ v, getField okPart "price" = some v ∧
      (v = Value.null ∨ ∃ q, v = Value.num q)) :=
  C9_name_price_invariant gen0 customs0 map0 none site3
    (fun raw fn kd h => Option.noConfusion h)
    ((processItems gen0 customs0 map0 none [okItem] []).1)
    (by decide) okPart (by decide)

/-- A mapping section with one custom-tagged entry (concrete instance
for witnesses). -/
def mapCustom : MapSection :=
  fun s =>
    if s = "Core Count" then some ("core_count", SerKind.custom) else none

/-- Claim C7: an attribute whose (trimmed) raw label has no entry in the
category's mapping section is skipped: a warning naming the label is
logged, the record is left exactly as it was — the processing of the
remaining cells starts from the unchanged record, so no field for the
attribute ever appears — and extraction of the remaining attributes
continues. -/
theorem C7_unknown_label_skipped (gen : Generic) (customs : Customs)
    (mapL : MapSection) (c : SpecCell) (rest : List SpecCell) (raw : String)
    (p : Part) (hl : c.label = some raw) (hm : mapL (jsTrim raw) = none) :
    processSpecs gen customs mapL (c :: rest) p
      = ((processSpecs gen customs mapL rest p).1,
         LogEntry.unknownSpec (jsTrim raw) ::
           (processSpecs gen customs mapL rest p).2) := by
  simp only [processSpecs, hl, hm]

/-- Witness for C7: the unknown label `"Mystery Spec"` is logged and
skipped on an otherwise empty cell list. -/
theorem C7_witness :
    processSpecs gen0 customs0 map0
        [{ label := some "Mystery Spec", value := some "x" }] []
      = ((processSpecs gen0 customs0 map0 [] []).1,
         LogEntry.unknownSpec (jsTrim "Mystery Spec") ::
           (processSpecs gen0 customs0 map0 [] []).2) :=
  C7_unknown_label_skipped gen0 customs0 map0
    { label := some "Mystery Spec", value := some "x" } [] "Mystery Spec" []
    (by rfl) (by rfl)

/-- Claim C8: a custom-tagged attribute with a non-blank raw value but
no registry entry for its field gets the field set to null, a warning is
logged, and processing continues with the remaining cells — no exception
propagates (the loop proceeds exactly as in the registered case, with
null in place of the serializer's output). -/
theorem C8_missing_custom_null (gen : Generic) (customs : Customs)
    (mapL : MapSection) (c : SpecCell) (rest : List SpecCell)
    (raw fn v : String) (p : Part)
    (hl : c.label = some raw)
    (hm : mapL (jsTrim raw) = some (fn, SerKind.custom))
    (hv : c.value = some v) (hne : jsTrim v ≠ "") (hc : customs fn = none) :
    processSpecs gen customs mapL (c :: rest) p
      = ((processSpecs gen customs mapL rest (setField p fn Value.null)).1,
         LogEntry.missingCustom fn ::
           (processSpecs gen customs mapL rest
             (setField p fn Value.null)).2) := by
  simp only [processSpecs, hl, hm, hv, hne, hc, ite_false, if_false]
  rw [if_pos trivial]

/-- Witness for C8: the custom-tagged `"Core Count"` cell with value
`"8"` and an empty registry resolves to a null `core_count` field plus a
warning. -/
theorem C8_witness :
    processSpecs gen0 customs0 mapCustom
        [{ label := some "Core Count", value := some "8" }] []
      = ((processSpecs gen0 customs0 mapCustom []
            (setField [] "core_count" Value.null)).1,
         LogEntry.missingCustom "core_count" ::
           (processSpecs gen0 customs0 mapCustom []
             (setField [] "core_count" Value.null)).2) :=
  C8_missing_custom_null gen0 customs0 mapCustom
    { label := some "Core Count", value := some "8" } [] "Core Count"
    "core_count" "8" [] (by rfl) (by decide) (by rfl) (by decide) (by rfl)

/-- Claim C10: a mapped attribute whose raw value is missing (`null`
textContent) or blank after trimming gets its field set to null directly
— the step is the same for every serialization kind and hands the same
generic and custom serializers on to the remaining cells untouched, so
neither serializer is consulted for this cell. -/
theorem C10_blank_value_null (gen : Generic) (customs : Customs)
    (mapL : MapSection) (c : SpecCell) (rest : List SpecCell)
    (raw fn : String) (kind : SerKind) (p : Part)
    (hl : c.label = some raw) (hm : mapL (jsTrim raw) = some (fn, kind))
    (hv : c.value = none ∨ ∃ v, c.value = some v ∧ jsTrim v = "") :
    processSpecs gen customs mapL (c :: rest) p
      = processSpecs gen customs mapL rest (setField p fn Value.null) := by
  rcases hv with hv | ⟨v, hv, hvt⟩
  · simp only [processSpecs, hl, hm, hv]
  · simp only [processSpecs, hl, hm, hv, hvt, ite_true, if_true]

/-- Witness for C10: a whitespace-only value under a custom-tagged
mapping becomes a null field without consulting the (empty) registry. -/
theorem C10_witness :
    processSpecs gen0 customs0 mapCustom
        [{ label := some "Core Count", value := some "  " }] []
      = processSpecs gen0 customs0 mapCustom []
          (setField [] "core_count" Value.null) :=
  C10_blank_value_null gen0 customs0 mapCustom
    { label := some "Core Count", value := some "  " } [] "Core Count"
    "core_count" SerKind.custom [] (by rfl) (by decide)
    (Or.inr ⟨"  ", rfl, by decide⟩)

/-- Claim C4's divergence, evaluated on the code: an invocation whose
only arguments are `-n 5` does not fall back to the fixed category
list — the flag and its value are themselves used as category tokens. -/
theorem C4_flag_treated_as_category :
    endpointsToScrape ["-n", "5"] = ["-n", "5"] ∧
    "-n" ∈ endpointsToScrape ["-n", "5"] ∧
    endpointsToScrape ["-n", "5"] ≠ ALL_ENDPOINTS := by
  refine ⟨rfl, by decide, by decide⟩

end PCPS
